import Mathlib

/-!
# Verification of the mcp-toggl caching and hydration layer

A shallow embedding of the caching/hydration core of the `mcp-toggl`
repository (`src/cache-manager.ts`, timeline handling and cache-warming
coordination in `src/index.ts`), with theorems checking the repository's
natural-language specification against the code.

Modelling conventions:
* A JavaScript `Map<number, V>` is an insertion-ordered association list
  `List (Nat × V)`: `Map.set` overwrites in place for a present key and
  appends a fresh key, `Map.delete` removes the key, `Map.keys().next()`
  is the head of the list, `Map.size` is the length (keys are pairwise
  distinct by construction).
* `Date.now()` is an explicit `now : Int` parameter (milliseconds).
* Machine numbers are modelled as `Int`/`Nat`; the only division in the
  core, `cache.size >= maxSize / 6`, is JS real division and is encoded
  by the equivalent integer comparison `maxSize ≤ 6 * cache.size`.
* `async` code is single-threaded with run-to-completion between `await`
  points, so it is modelled by explicit state passing; promise rejection
  is a `Fetch.failed` result (every rejection in the modelled code is
  caught by a `try`/`catch`).
-/

set_option autoImplicit false

namespace McpToggl

/-! ## The store model: a JS `Map<number, CacheEntry<T>>` -/

/-- `CacheEntry<T>` from types.ts: `{ data, timestamp, ttl }`. -/
structure CacheEntry (α : Type) where
  data : α
  timestamp : Int
  ttl : Int
  deriving Repr, DecidableEq

/-- One per-kind store of the cache: an insertion-ordered map. -/
abbrev Store (α : Type) := List (Nat × CacheEntry α)

/-- `Map.get`: the entry stored under `id`, if any. -/
def mapFind {α : Type} (s : Store α) (id : Nat) : Option (CacheEntry α) :=
  (s.find? (fun p => p.1 == id)).map (fun p => p.2)

/-- `Map.has`. -/
def storeHas {α : Type} (s : Store α) (id : Nat) : Bool :=
  (mapFind s id).isSome

/-- `Map.set`: overwrite in place when the key is present, append when fresh. -/
def mapSet {α : Type} (s : Store α) (id : Nat) (e : CacheEntry α) : Store α :=
  if (s.find? (fun p => p.1 == id)).isSome then
    s.map (fun p => if p.1 == id then (id, e) else p)
  else
    s ++ [(id, e)]

/-- `Map.delete`. -/
def mapDelete {α : Type} (s : Store α) (id : Nat) : Store α :=
  s.filter (fun p => !(p.1 == id))

/-! ## Cache configuration, statistics, get/set (cache-manager.ts) -/

/-- `CacheConfig` from types.ts (`batchSize` is an unused hint). -/
structure CacheConfig where
  ttl : Int
  maxSize : Nat
  batchSize : Nat
  deriving Repr, DecidableEq

/-- The mutable `stats` counters of `CacheManager`. -/
structure CacheStatsCounters where
  hits : Nat
  misses : Nat
  deriving Repr, DecidableEq

/-- `isValid` (cache-manager.ts lines 42–46): an entry is valid iff its age
`now - timestamp` is strictly below its ttl. -/
def isValid {α : Type} (now : Int) (entry : Option (CacheEntry α)) : Bool :=
  match entry with
  | none => false
  | some e => now - e.timestamp < e.ttl

/-- `getCached` (cache-manager.ts lines 49–57).  Returns the value (or
`none`), the updated counters, and the store — which the source never
mutates on a `get`, hence is returned unchanged. -/
def getCached {α : Type} (now : Int) (cache : Store α) (stats : CacheStatsCounters)
    (id : Nat) : Option α × CacheStatsCounters × Store α :=
  let entry := mapFind cache id
  if isValid now entry then
    (entry.map (fun e => e.data), { stats with hits := stats.hits + 1 }, cache)
  else
    (none, { stats with misses := stats.misses + 1 }, cache)

/-- `setCached` (cache-manager.ts lines 60–74).  The JS guard is
`cache.size >= this.config.maxSize / 6` with real division, equivalent over
the integers to `maxSize ≤ 6 * cache.size`; when it fires, the
oldest-inserted key (`cache.keys().next().value`) is deleted, then the new
entry is inserted with a fresh timestamp. -/
def setCached {α : Type} (cfg : CacheConfig) (now : Int) (cache : Store α)
    (id : Nat) (data : α) : Store α :=
  let cache1 :=
    if cfg.maxSize ≤ 6 * cache.length then
      match cache with
      | [] => cache
      | (firstKey, _) :: _ => mapDelete cache firstKey
    else cache
  mapSet cache1 id { data := data, timestamp := now, ttl := cfg.ttl }

/-- Insert a sequence of IDs (each with payload `d`) in order. -/
def putAll {α : Type} (cfg : CacheConfig) (now : Int) (s : Store α)
    (ids : List Nat) (d : α) : Store α :=
  ids.foldl (fun acc i => setCached cfg now acc i d) s

/-- The per-kind capacity the guard actually enforces:
`size ≥ maxSize / 6` (real division) first holds at `size = ⌈maxSize/6⌉`. -/
def perKindCapacity (maxSize : Nat) : Nat :=
  (maxSize + 5) / 6

/-! ## Entities, the upstream adapter and the cache-manager state -/

/-- `Workspace` (types.ts), restricted to the fields the core reads. -/
structure Workspace where
  id : Nat
  name : String
  deriving Repr, DecidableEq

/-- `Project` (types.ts), restricted to the fields the core reads.
`client_id` is optional in the source (`client_id?: number`). -/
structure Project where
  id : Nat
  workspace_id : Nat
  client_id : Option Nat
  name : String
  deriving Repr, DecidableEq

/-- `Client` (types.ts), restricted to the fields the core reads. -/
structure Client where
  id : Nat
  name : String
  deriving Repr, DecidableEq

/-- `Task` (types.ts), restricted to the fields the core reads. -/
structure Task where
  id : Nat
  name : String
  deriving Repr, DecidableEq

/-- `User` (types.ts): `email` and `fullname` are plain strings. -/
structure User where
  id : Nat
  email : String
  fullname : String
  deriving Repr, DecidableEq

/-- `Tag` (types.ts), restricted to the fields the core reads. -/
structure Tag where
  id : Nat
  workspace_id : Nat
  name : String
  deriving Repr, DecidableEq

/-- Outcome of one upstream fetch: a value, a resolved-but-falsy result
(`null`/`undefined`), or a rejected promise (caught by the manager's
`try`/`catch`). -/
inductive Fetch (α : Type) where
  | ok (value : α)
  | notFound
  | failed (msg : String)
  deriving Repr, DecidableEq

/-- The Upstream Fetch Adapter (`TogglAPI`), as the pure outcome of each
single-entity fetch the cache manager performs.  Argument order follows the
source call sites: `api.getTask(workspaceId, projectId, id)` and
`api.getTag(workspaceId, id)`. -/
structure TogglAPI where
  getWorkspace : Nat → Fetch Workspace
  getProject : Nat → Fetch Project
  getClient : Nat → Fetch Client
  getTask : Nat → Nat → Nat → Fetch Task
  getUser : Nat → Fetch User
  getTag : Nat → Nat → Fetch Tag

/-- One call issued against the upstream adapter (for fetch accounting). -/
inductive FetchCall where
  | workspace (id : Nat)
  | project (id : Nat)
  | client (id : Nat)
  | task (workspaceId : Nat) (projectId : Nat) (id : Nat)
  | user (id : Nat)
  | tag (workspaceId : Nat) (id : Nat)
  deriving Repr, DecidableEq

/-- The mutable state of a `CacheManager`: the six per-kind stores, the
hit/miss counters, plus a log of the upstream calls issued (observational,
for stating which fetches happen). -/
structure CMState where
  workspaces : Store Workspace
  projects : Store Project
  clients : Store Client
  tasks : Store Task
  users : Store User
  tags : Store Tag
  stats : CacheStatsCounters
  fetchLog : List FetchCall
  deriving Repr, DecidableEq

namespace CacheManager

/-- `getWorkspace` (cache-manager.ts lines 77–94): `if (!id) return null`
catches both `undefined` and `0`; then cache lookup, then fetch-and-cache
with errors caught.  (`setAPI` is assumed to have been called, as the
server does at startup.) -/
def getWorkspace (cfg : CacheConfig) (now : Int) (api : TogglAPI)
    (st : CMState) (id : Option Nat) : Option Workspace × CMState :=
  match id with
  | none => (none, st)
  | some i =>
    if i = 0 then (none, st)
    else
      let g := getCached now st.workspaces st.stats i
      match g.1 with
      | some w => (some w, { st with stats := g.2.1 })
      | none =>
        let st1 := { st with stats := g.2.1,
                             fetchLog := st.fetchLog ++ [FetchCall.workspace i] }
        match api.getWorkspace i with
        | Fetch.ok w =>
            (some w, { st1 with workspaces := setCached cfg now st1.workspaces i w })
        | Fetch.notFound => (none, st1)
        | Fetch.failed _ => (none, st1)

/-- `getProject` (cache-manager.ts lines 113–129). -/
def getProject (cfg : CacheConfig) (now : Int) (api : TogglAPI)
    (st : CMState) (id : Nat) : Option Project × CMState :=
  let g := getCached now st.projects st.stats id
  match g.1 with
  | some p => (some p, { st with stats := g.2.1 })
  | none =>
    let st1 := { st with stats := g.2.1,
                         fetchLog := st.fetchLog ++ [FetchCall.project id] }
    match api.getProject id with
    | Fetch.ok p =>
        (some p, { st1 with projects := setCached cfg now st1.projects id p })
    | Fetch.notFound => (none, st1)
    | Fetch.failed _ => (none, st1)

/-- `getClient` (cache-manager.ts lines 148–164). -/
def getClient (cfg : CacheConfig) (now : Int) (api : TogglAPI)
    (st : CMState) (id : Nat) : Option Client × CMState :=
  let g := getCached now st.clients st.stats id
  match g.1 with
  | some c => (some c, { st with stats := g.2.1 })
  | none =>
    let st1 := { st with stats := g.2.1,
                         fetchLog := st.fetchLog ++ [FetchCall.client id] }
    match api.getClient id with
    | Fetch.ok c =>
        (some c, { st1 with clients := setCached cfg now st1.clients id c })
    | Fetch.notFound => (none, st1)
    | Fetch.failed _ => (none, st1)

/-- `getTask` (cache-manager.ts lines 183–199): the manager caches by task
id and calls `api.getTask(workspaceId, projectId, id)`. -/
def getTask (cfg : CacheConfig) (now : Int) (api : TogglAPI)
    (st : CMState) (id workspaceId projectId : Nat) : Option Task × CMState :=
  let g := getCached now st.tasks st.stats id
  match g.1 with
  | some t => (some t, { st with stats := g.2.1 })
  | none =>
    let st1 := { st with stats := g.2.1,
                         fetchLog := st.fetchLog ++ [FetchCall.task workspaceId projectId id] }
    match api.getTask workspaceId projectId id with
    | Fetch.ok t =>
        (some t, { st1 with tasks := setCached cfg now st1.tasks id t })
    | Fetch.notFound => (none, st1)
    | Fetch.failed _ => (none, st1)

/-- `getUser` (cache-manager.ts lines 218–234). -/
def getUser (cfg : CacheConfig) (now : Int) (api : TogglAPI)
    (st : CMState) (id : Nat) : Option User × CMState :=
  let g := getCached now st.users st.stats id
  match g.1 with
  | some u => (some u, { st with stats := g.2.1 })
  | none =>
    let st1 := { st with stats := g.2.1,
                         fetchLog := st.fetchLog ++ [FetchCall.user id] }
    match api.getUser id with
    | Fetch.ok u =>
        (some u, { st1 with users := setCached cfg now st1.users id u })
    | Fetch.notFound => (none, st1)
    | Fetch.failed _ => (none, st1)

/-- `getTag` (cache-manager.ts lines 237–253): caches by tag id, calls
`api.getTag(workspaceId, id)`. -/
def getTag (cfg : CacheConfig) (now : Int) (api : TogglAPI)
    (st : CMState) (id workspaceId : Nat) : Option Tag × CMState :=
  let g := getCached now st.tags st.stats id
  match g.1 with
  | some t => (some t, { st with stats := g.2.1 })
  | none =>
    let st1 := { st with stats := g.2.1,
                         fetchLog := st.fetchLog ++ [FetchCall.tag workspaceId id] }
    match api.getTag workspaceId id with
    | Fetch.ok t =>
        (some t, { st1 with tags := setCached cfg now st1.tags id t })
    | Fetch.notFound => (none, st1)
    | Fetch.failed _ => (none, st1)

end CacheManager

/-! ## Hydration (cache-manager.ts lines 305–379) -/

/-- `TimeEntry` (types.ts), restricted to the fields hydration reads.
Optional numeric fields are `Option Nat`; the JS truthiness guards
(`if (entry.project_id)` etc.) additionally treat `0` as absent. -/
structure TimeEntry where
  id : Nat
  workspace_id : Nat
  project_id : Option Nat
  task_id : Option Nat
  user_id : Option Nat
  tag_ids : Option (List Nat)
  deriving Repr, DecidableEq

/-- `HydratedTimeEntry` (types.ts): the spread copy of the input entry
plus the resolved display fields. -/
structure HydratedTimeEntry where
  entry : TimeEntry
  workspace_name : String
  project_name : Option String
  client_id : Option Nat
  client_name : Option String
  task_name : Option String
  user_name : Option String
  tag_names : Option (List String)
  deriving Repr, DecidableEq

/-- JS `x || fallback` on an optional string: an absent or empty string
falls through to the fallback. -/
def jsOrStr (x : Option String) (fallback : String) : String :=
  match x with
  | some s => if s = "" then fallback else s
  | none => fallback

/-- The project/client block of the per-entry loop (lines 341–350):
guarded by truthy `entry.project_id`; the client is resolved only when the
resolved project carries a truthy `client_id`. -/
def resolveProjectClient (cfg : CacheConfig) (now : Int) (api : TogglAPI)
    (st : CMState) (entry : TimeEntry) :
    (Option String × Option Nat × Option String) × CMState :=
  match entry.project_id with
  | none => ((none, none, none), st)
  | some pid =>
    if pid = 0 then ((none, none, none), st)
    else
      let pr := CacheManager.getProject cfg now api st pid
      let project_name := jsOrStr (pr.1.map Project.name) ("Project " ++ toString pid)
      match pr.1 with
      | some project =>
        match project.client_id with
        | some cid =>
          if cid = 0 then ((some project_name, none, none), pr.2)
          else
            let cl := CacheManager.getClient cfg now api pr.2 cid
            ((some project_name, some cid,
              some (jsOrStr (cl.1.map Client.name) ("Client " ++ toString cid))), cl.2)
        | none => ((some project_name, none, none), pr.2)
      | none => ((some project_name, none, none), pr.2)

/-- The task block (lines 353–356): guarded by truthy `task_id` and
truthy `project_id`. -/
def resolveTaskName (cfg : CacheConfig) (now : Int) (api : TogglAPI)
    (st : CMState) (entry : TimeEntry) : Option String × CMState :=
  match entry.task_id, entry.project_id with
  | some tid, some pid =>
    if tid = 0 ∨ pid = 0 then (none, st)
    else
      let tk := CacheManager.getTask cfg now api st tid entry.workspace_id pid
      (some (jsOrStr (tk.1.map Task.name) ("Task " ++ toString tid)), tk.2)
  | _, _ => (none, st)

/-- The user block (lines 359–362): `user?.fullname || user?.email ||
`User ${id}``. -/
def resolveUserName (cfg : CacheConfig) (now : Int) (api : TogglAPI)
    (st : CMState) (entry : TimeEntry) : Option String × CMState :=
  match entry.user_id with
  | none => (none, st)
  | some uid =>
    if uid = 0 then (none, st)
    else
      let u := CacheManager.getUser cfg now api st uid
      (some (jsOrStr (u.1.map User.fullname)
        (jsOrStr (u.1.map User.email) ("User " ++ toString uid))), u.2)

/-- The tag block (lines 365–373): resolve each tag id in order, pushing
only the names that resolve. -/
def resolveTagNames (cfg : CacheConfig) (now : Int) (api : TogglAPI)
    (st : CMState) (entry : TimeEntry) : Option (List String) × CMState :=
  match entry.tag_ids with
  | none => (none, st)
  | some tagIds =>
    if tagIds.length > 0 then
      let r := tagIds.foldl (fun (acc : List String × CMState) tagId =>
        let tg := CacheManager.getTag cfg now api acc.2 tagId entry.workspace_id
        match tg.1 with
        | some tag => (acc.1 ++ [tag.name], tg.2)
        | none => (acc.1, tg.2)) ([], st)
      (some r.1, r.2)
    else (none, st)

/-- The body of the per-entry loop of `hydrateTimeEntries`
(lines 333–376): resolutions run in source order, each threading the
manager state. -/
def hydrateOne (cfg : CacheConfig) (now : Int) (api : TogglAPI)
    (st : CMState) (entry : TimeEntry) : HydratedTimeEntry × CMState :=
  let w := CacheManager.getWorkspace cfg now api st (some entry.workspace_id)
  let pc := resolveProjectClient cfg now api w.2 entry
  let t := resolveTaskName cfg now api pc.2 entry
  let u := resolveUserName cfg now api t.2 entry
  let g := resolveTagNames cfg now api u.2 entry
  ({ entry := entry
     workspace_name :=
       jsOrStr (w.1.map Workspace.name) ("Workspace " ++ toString entry.workspace_id)
     project_name := pc.1.1
     client_id := pc.1.2.1
     client_name := pc.1.2.2
     task_name := t.1
     user_name := u.1
     tag_names := g.1 }, g.2)

/-- The per-entry loop: entries processed in order, state threaded. -/
def hydrateAll (cfg : CacheConfig) (now : Int) (api : TogglAPI) :
    CMState → List TimeEntry → List HydratedTimeEntry × CMState
  | st, [] => ([], st)
  | st, e :: rest =>
    let r := hydrateOne cfg now api st e
    let rs := hydrateAll cfg now api r.2 rest
    (r.1 :: rs.1, rs.2)

/-- One step of scanning the input for `projectIds.add(entry.project_id)`
(guarded by truthiness): a `Set` keeps first-occurrence order and ignores
re-additions. -/
def collectStep (acc : List Nat) (e : TimeEntry) : List Nat :=
  match e.project_id with
  | some pid => if pid ≠ 0 ∧ pid ∉ acc then acc ++ [pid] else acc
  | none => acc

/-- Lines 309–323: the `Set` of project IDs referenced by the input —
distinct, in first-occurrence order, skipping falsy (`0`/absent) ids. -/
def collectProjectIds (entries : List TimeEntry) : List Nat :=
  entries.foldl collectStep []

/-- Lines 326–330: `Promise.all(projectsToFetch.map(id => this.getProject(id)))`.
The synchronous half of each `getProject` runs in list order on the JS
event loop; with pairwise-distinct ids the resulting state does not depend
on the interleaving of the awaited halves, so the round is modelled
sequentially in list order. -/
def prefetchAll (cfg : CacheConfig) (now : Int) (api : TogglAPI)
    (st : CMState) (ids : List Nat) : CMState :=
  ids.foldl (fun s i => (CacheManager.getProject cfg now api s i).2) st

/-- `hydrateTimeEntries` (lines 305–379): one prefetch round for the
referenced project IDs missing from the store (`!this.projects.has(id)`),
then the per-entry loop. -/
def hydrateTimeEntries (cfg : CacheConfig) (now : Int) (api : TogglAPI)
    (st : CMState) (entries : List TimeEntry) :
    List HydratedTimeEntry × CMState :=
  let projectsToFetch :=
    (collectProjectIds entries).filter (fun i => !(storeHas st.projects i))
  let st1 := prefetchAll cfg now api st projectsToFetch
  hydrateAll cfg now api st1 entries

/-! ## Cache warming coordination (index.ts lines 133–151)

`ensureCache` runs no `await` before storing the freshly created warming
promise, so on the single-threaded event loop its whole synchronous body is
atomic: a "step" of a caller is one execution of that body.  The promise
settling (running the `.then`/`.finally` handlers) is a separate later
step.  Operations are numbered so that "which operation does a caller
await" is observable. -/

/-- The module-level warming state of index.ts: `cacheWarmed`,
`cacheWarmingPromise` (the id of the pending operation, if any), a fresh
operation counter, and how many underlying `cache.warmCache` executions
have been started (the fetch-burst count a call-counting stub would see). -/
structure WarmState where
  cacheWarmed : Bool
  slot : Option Nat
  nextOp : Nat
  warmCount : Nat
  deriving Repr, DecidableEq

/-- What a call of `ensureCache` does before suspending: return at once
(cache already warmed) or await a particular pending operation. -/
inductive AwaitTarget where
  | immediate
  | op (id : Nat)
  deriving Repr, DecidableEq

/-- The synchronous body of `ensureCache`: if warmed, return; if no
promise is pending, create one (starting one underlying warm — the fetch
burst begins immediately) and store it; in any case await the pending
operation. -/
def ensureCacheEnter (s : WarmState) : WarmState × AwaitTarget :=
  if s.cacheWarmed then (s, AwaitTarget.immediate)
  else
    match s.slot with
    | some p => (s, AwaitTarget.op p)
    | none =>
      ({ s with slot := some s.nextOp, nextOp := s.nextOp + 1,
                warmCount := s.warmCount + 1 },
       AwaitTarget.op s.nextOp)

/-- The settling of the pending warm operation: `.then` sets `cacheWarmed`
on success, the `.catch` swallows failure, and `.finally` clears the slot —
only this step ever clears it. -/
def settleWarm (s : WarmState) (success : Bool) : WarmState :=
  { s with cacheWarmed := s.cacheWarmed || success, slot := none }

/-! ## Timeline windowing and summary (index.ts lines 1032–1117) -/

/-- `TimelineEvent` (types.ts): timestamps in unix seconds, `end_time`
`null` while the event is still active, `filename` nullable. -/
structure TimelineEvent where
  id : Nat
  start_time : Int
  end_time : Option Int
  filename : Option String
  title : Option String
  idle : Bool
  deriving Repr, DecidableEq

/-- The enriched event pushed into the response (lines 1094–1100): the raw
event spread plus the normalized filename, the window-clipped endpoints
(kept as unix seconds; the ISO rendering is not modelled) and the clipped
duration.  `endTime` models the response field named `end`. -/
structure EnrichedTimelineEvent where
  event : TimelineEvent
  filename : String
  start : Int
  endTime : Int
  duration_seconds : Int
  deriving Repr, DecidableEq

/-- The resolved request parameters of `toggl_get_timeline`: the window
bounds (unix seconds, absent = unbounded), the lowercased app filter
(absent when no app was given), `include_events`, and the clamped limit. -/
structure TimelineQuery where
  startTs : Option Int
  endTs : Option Int
  appFilter : Option String
  includeEvents : Bool
  limit : Int
  deriving Repr, DecidableEq

/-- Line 1060: `Math.max(1, Math.min(typeof rawLimit === 'number' ?
rawLimit : 50, 1000))`. -/
def clampLimit (raw : Option Int) : Int :=
  max 1 (min (raw.getD 50) 1000)

/-- Line 1071: `e.end_time ?? now`. -/
def effectiveEnd (now : Int) (e : TimelineEvent) : Int :=
  e.end_time.getD now

/-- Line 1079: `e.filename ?? 'Unknown'`. -/
def normalizedApp (e : TimelineEvent) : String :=
  e.filename.getD "Unknown"

/-- Does `l` start with `sub`? -/
def leadsWith : List Char → List Char → Bool
  | [], _ => true
  | _ :: _, [] => false
  | a :: as, b :: bs => a == b && leadsWith as bs

/-- Does `l` contain `sub` as a contiguous run? -/
def containsRun (sub : List Char) : List Char → Bool
  | [] => leadsWith sub []
  | b :: bs => leadsWith sub (b :: bs) || containsRun sub bs

/-- JS `String.prototype.includes`: substring containment. -/
def strIncludes (s sub : String) : Bool :=
  containsRun sub.data s.data

/-- Lines 1073–1080: the three `continue` guards.  An event is kept iff it
overlaps the window (`eventEnd < startTs` and `start_time ≥ endTs` skip)
and, when an app filter is set, the lowercased normalized filename
contains it. -/
def matchesEvent (q : TimelineQuery) (now : Int) (e : TimelineEvent) : Bool :=
  let skipStart :=
    match q.startTs with
    | some ws => decide (effectiveEnd now e < ws)
    | none => false
  let skipEnd :=
    match q.endTs with
    | some we => decide (e.start_time ≥ we)
    | none => false
  let skipApp :=
    match q.appFilter with
    | some f => !(strIncludes (normalizedApp e).toLower f)
    | none => false
  !skipStart && !skipEnd && !skipApp

/-- Line 1083: `startTs !== null ? Math.max(e.start_time, startTs) :
e.start_time`. -/
def clipStart (q : TimelineQuery) (e : TimelineEvent) : Int :=
  match q.startTs with
  | some ws => max e.start_time ws
  | none => e.start_time

/-- Line 1084: `endTs !== null ? Math.min(eventEnd, endTs) : eventEnd`. -/
def clipEnd (q : TimelineQuery) (now : Int) (e : TimelineEvent) : Int :=
  match q.endTs with
  | some we => min (effectiveEnd now e) we
  | none => effectiveEnd now e

/-- Line 1085: `Math.max(0, clippedEnd - clippedStart)`. -/
def clipDuration (q : TimelineQuery) (now : Int) (e : TimelineEvent) : Int :=
  max 0 (clipEnd q now e - clipStart q e)

/-- Lines 1094–1100: the enriched event pushed for a matching event. -/
def enrichEvent (q : TimelineQuery) (now : Int) (e : TimelineEvent) :
    EnrichedTimelineEvent :=
  { event := e
    filename := normalizedApp e
    start := clipStart q e
    endTime := clipEnd q now e
    duration_seconds := clipDuration q now e }

/-- `appSummary.set(filename, (appSummary.get(filename) ?? 0) + duration)`:
bump in place for a present key, append for a fresh one. -/
def bumpSummary (m : List (String × Int)) (k : String) (v : Int) :
    List (String × Int) :=
  if (m.find? (fun p => p.1 == k)).isSome then
    m.map (fun p => if p.1 == k then (p.1, p.2 + v) else p)
  else
    m ++ [(k, v)]

/-- The loop accumulator of lines 1064–1067. -/
structure TimelineAcc where
  appSummary : List (String × Int)
  events : List EnrichedTimelineEvent
  totalCount : Nat
  totalSeconds : Int
  deriving Repr, DecidableEq

/-- The loop body (lines 1069–1102): skip non-matching events; always
update count/seconds/summary for a matching event; push the enriched
event only while `includeEvents` and `events.length < limit`. -/
def processEvent (q : TimelineQuery) (now : Int) (acc : TimelineAcc)
    (e : TimelineEvent) : TimelineAcc :=
  if matchesEvent q now e then
    let duration := clipDuration q now e
    let acc1 := { acc with
      totalCount := acc.totalCount + 1
      totalSeconds := acc.totalSeconds + duration
      appSummary := bumpSummary acc.appSummary (normalizedApp e) duration }
    if q.includeEvents && decide ((acc1.events.length : Int) < q.limit) then
      { acc1 with events := acc1.events ++ [enrichEvent q now e] }
    else acc1
  else acc

/-- The full single pass. -/
def runTimelineAcc (q : TimelineQuery) (now : Int)
    (events : List TimelineEvent) : TimelineAcc :=
  events.foldl (processEvent q now) ⟨[], [], 0, 0⟩

/-- The JSON response shape of `toggl_get_timeline` (lines 1109–1116);
`events` is present only when `includeEvents`. -/
structure TimelineResult where
  total_events : Nat
  returned_events : Nat
  truncated : Bool
  total_seconds : Int
  summary : List (String × Int)
  events : Option (List EnrichedTimelineEvent)
  deriving Repr, DecidableEq

/-- Lines 1104–1107: `[...appSummary.entries()].sort((a, b) => b[1] - a[1])`
— a stable descending sort on the aggregated seconds. -/
def sortSummary (m : List (String × Int)) : List (String × Int) :=
  m.mergeSort (fun a b => decide (b.2 ≤ a.2))

/-- `toggl_get_timeline` (lines 1032–1117) after argument resolution. -/
def getTimeline (q : TimelineQuery) (now : Int)
    (events : List TimelineEvent) : TimelineResult :=
  let acc := runTimelineAcc q now events
  { total_events := acc.totalCount
    returned_events := acc.events.length
    truncated := q.includeEvents && decide (acc.events.length < acc.totalCount)
    total_seconds := acc.totalSeconds
    summary := sortSummary acc.appSummary
    events := if q.includeEvents then some acc.events else none }

/-- The project name an entry should end with when the upstream adapter
resolves every referenced project except `b` (whose fetch fails): entries
with no truthy project reference get none, entries referencing `b` get the
deterministic placeholder, all others get the project's real name. -/
def expectedProjectName (projFn : Nat → Project) (b : Nat)
    (e : TimeEntry) : Option String :=
  match e.project_id with
  | some p =>
    if p = 0 then none
    else if p = b then some ("Project " ++ toString p)
    else some ((projFn p).name)
  | none => none

/-- The stores at `b`-free agreement with `projFn`: every cached project
entry holds the adapter's value for its key, and nothing is cached at
`b`. -/
def ProjOk (projFn : Nat → Project) (b : Nat) (s : Store Project) : Prop :=
  ∀ p ∈ s, p.1 ≠ b ∧ p.2.data = projFn p.1

/-! ## Concrete stubs for witnesses -/

/-- An adapter for which exactly project 2 fails and every other project
resolves. -/
def isolationAPI : TogglAPI :=
  ⟨fun _ => Fetch.notFound,
   fun p => if p = 2 then Fetch.failed "network" else Fetch.ok ⟨p, 10, none, "Alpha"⟩,
   fun _ => Fetch.notFound, fun _ _ _ => Fetch.notFound, fun _ => Fetch.notFound,
   fun _ _ => Fetch.notFound⟩

/-- The projects `isolationAPI` serves. -/
def isolationProjFn : Nat → Project :=
  fun p => ⟨p, 10, none, "Alpha"⟩

/-- An adapter for which project 2 fails and every other project resolves
successfully — but to a project whose name is the empty string. -/
def emptyNameAPI : TogglAPI :=
  ⟨fun _ => Fetch.notFound,
   fun p => if p = 2 then Fetch.failed "network" else Fetch.ok ⟨p, 10, none, ""⟩,
   fun _ => Fetch.notFound, fun _ _ _ => Fetch.notFound, fun _ => Fetch.notFound,
   fun _ _ => Fetch.notFound⟩

/-- An adapter stub on which every fetch resolves to nothing. -/
def stubAPI : TogglAPI :=
  ⟨fun _ => Fetch.notFound, fun _ => Fetch.notFound, fun _ => Fetch.notFound,
   fun _ _ _ => Fetch.notFound, fun _ => Fetch.notFound, fun _ _ => Fetch.notFound⟩

/-- A freshly constructed manager state: six empty stores, zero counters. -/
def emptyState : CMState :=
  ⟨[], [], [], [], [], [], ⟨0, 0⟩, []⟩

/-! ## Store and eviction lemmas -/

theorem perKindCapacity_le_iff (maxSize m : Nat) :
    perKindCapacity maxSize ≤ m ↔ maxSize ≤ 6 * m := by
  simp only [perKindCapacity]
  omega

theorem mapFind_mem {α : Type} {s : Store α} {id : Nat} {e : CacheEntry α}
    (h : mapFind s id = some e) : (id, e) ∈ s := by
  simp only [mapFind, Option.map_eq_some'] at h
  obtain ⟨p, hf, he⟩ := h
  have hm := List.mem_of_find?_eq_some hf
  have hp := List.find?_some hf
  simp only [beq_iff_eq] at hp
  have : p = (id, e) := by
    cases p
    simp_all
  rwa [this] at hm

theorem mapFind_eq_none_iff {α : Type} (s : Store α) (id : Nat) :
    mapFind s id = none ↔ ∀ p ∈ s, p.1 ≠ id := by
  simp only [mapFind, Option.map_eq_none', List.find?_eq_none, beq_iff_eq]

/-! ### Shape of a store filled from empty with distinct keys -/

theorem mapSet_append_of_not_mem {α : Type} (e0 e1 : CacheEntry α) (l : List Nat)
    (a : Nat) (h : a ∉ l) :
    mapSet (l.map (fun i => (i, e0))) a e1 = l.map (fun i => (i, e0)) ++ [(a, e1)] := by
  have hf : (l.map (fun i => (i, e0))).find? (fun p => p.1 == a) = none := by
    rw [List.find?_eq_none]
    intro p hp
    obtain ⟨i, hi, rfl⟩ := List.mem_map.mp hp
    simp only [beq_iff_eq]
    exact fun hia => h (hia ▸ hi)
  simp [mapSet, hf]

theorem mapDelete_cons_of_not_mem {α : Type} (e0 : CacheEntry α) (i0 : Nat)
    (l : List Nat) (h : i0 ∉ l) :
    mapDelete ((i0, e0) :: l.map (fun i => (i, e0))) i0 = l.map (fun i => (i, e0)) := by
  simp only [mapDelete]
  rw [List.filter_cons_of_neg (by simp)]
  rw [List.filter_eq_self]
  intro p hp
  obtain ⟨i, hi, rfl⟩ := List.mem_map.mp hp
  simp only [Bool.not_eq_true', beq_eq_false_iff_ne, ne_eq]
  exact fun hii => h (hii ▸ hi)

theorem setCached_cons_evict {α : Type} {cfg : CacheConfig} {now : Int} {k : Nat}
    {e : CacheEntry α} {rest : Store α} {id : Nat} {data : α}
    (h : cfg.maxSize ≤ 6 * ((k, e) :: rest).length) :
    setCached cfg now ((k, e) :: rest) id data =
      mapSet (mapDelete ((k, e) :: rest) k) id ⟨data, now, cfg.ttl⟩ := by
  simp only [setCached]
  rw [if_pos h]

theorem setCached_no_evict {α : Type} {cfg : CacheConfig} {now : Int}
    {cache : Store α} {id : Nat} {data : α}
    (h : ¬ cfg.maxSize ≤ 6 * cache.length) :
    setCached cfg now cache id data = mapSet cache id ⟨data, now, cfg.ttl⟩ := by
  simp only [setCached]
  rw [if_neg h]

/-- Filling an empty store with pairwise-distinct IDs leaves exactly the
last `perKindCapacity maxSize` of them, in insertion order. -/
theorem putAll_nodup_eq {α : Type} (cfg : CacheConfig) (now : Int) (d : α)
    (hmax : 1 ≤ cfg.maxSize) (ids : List Nat) (hnd : ids.Nodup) :
    putAll cfg now [] ids d =
      (ids.drop (ids.length - perKindCapacity cfg.maxSize)).map
        (fun i => (i, ⟨d, now, cfg.ttl⟩)) := by
  induction ids using List.reverseRecOn with
  | nil => simp [putAll]
  | append_singleton l a ih =>
    simp only [List.nodup_append, List.nodup_cons, List.not_mem_nil, not_false_iff,
      List.nodup_nil, and_true, true_and, List.disjoint_singleton] at hnd
    obtain ⟨hnl, ha⟩ := hnd
    have step : putAll cfg now [] (l ++ [a]) d =
        setCached cfg now (putAll cfg now [] l d) a d := by
      simp [putAll, List.foldl_append]
    rw [step, ih hnl]
    have hcap1 : 1 ≤ perKindCapacity cfg.maxSize := by
      have := perKindCapacity_le_iff cfg.maxSize 0
      omega
    by_cases hcase : perKindCapacity cfg.maxSize ≤ l.length
    · -- at capacity: evict the oldest-inserted key, then append
      have hLlen : (l.drop (l.length - perKindCapacity cfg.maxSize)).length =
          perKindCapacity cfg.maxSize := by
        rw [List.length_drop]; omega
      have hex : ∃ i0 L2, l.drop (l.length - perKindCapacity cfg.maxSize) = i0 :: L2 := by
        cases hd : l.drop (l.length - perKindCapacity cfg.maxSize) with
        | nil => rw [hd] at hLlen; simp at hLlen; omega
        | cons x xs => exact ⟨x, xs, rfl⟩
      obtain ⟨i0, L2, hL⟩ := hex
      have hLnd : (i0 :: L2).Nodup := by
        rw [← hL]; exact hnl.sublist (List.drop_sublist _ _)
      have hi0 : i0 ∉ L2 := (List.nodup_cons.mp hLnd).1
      have hsubl : ∀ x, x ∈ i0 :: L2 → x ∈ l := by
        intro x hx
        rw [← hL] at hx
        exact List.mem_of_mem_drop hx
      have haL2 : a ∉ L2 := fun hx => ha (hsubl a (List.mem_cons_of_mem _ hx))
      have hlen2 : L2.length + 1 = perKindCapacity cfg.maxSize := by
        rw [hL] at hLlen
        simpa using hLlen
      rw [hL, List.map_cons]
      rw [setCached_cons_evict (by
        simp only [List.length_cons, List.length_map]
        have := (perKindCapacity_le_iff cfg.maxSize (L2.length + 1)).mp (le_of_eq hlen2.symm)
        omega)]
      rw [mapDelete_cons_of_not_mem _ _ _ hi0]
      rw [mapSet_append_of_not_mem _ _ _ _ haL2]
      have hdrop : (l ++ [a]).drop ((l ++ [a]).length - perKindCapacity cfg.maxSize) =
          L2 ++ [a] := by
        rw [List.length_append, List.drop_append_eq_append_drop]
        have e1 : l.length + [a].length - perKindCapacity cfg.maxSize =
            (l.length - perKindCapacity cfg.maxSize) + 1 := by
          simp only [List.length_singleton]; omega
        rw [e1, ← List.drop_drop, hL]
        have e2 : l.length - perKindCapacity cfg.maxSize + 1 - l.length = 0 := by
          omega
        rw [e2]
        simp
      rw [hdrop, List.map_append]
      rfl
    · -- below capacity: plain append, no eviction
      have hdrop0 : l.length - perKindCapacity cfg.maxSize = 0 := by omega
      rw [hdrop0, List.drop_zero]
      rw [setCached_no_evict (by
        simp only [List.length_map]
        intro hc
        exact hcase ((perKindCapacity_le_iff cfg.maxSize l.length).mpr hc))]
      rw [mapSet_append_of_not_mem _ _ _ _ ha]
      have : (l ++ [a]).length - perKindCapacity cfg.maxSize = 0 := by
        simp only [List.length_append, List.length_singleton]; omega
      rw [this, List.drop_zero, List.map_append]
      rfl

theorem mapFind_map_const_eq_none {α : Type} (e0 : CacheEntry α) (l : List Nat)
    (i : Nat) (h : i ∉ l) :
    mapFind (l.map (fun j => (j, e0))) i = none := by
  rw [mapFind_eq_none_iff]
  intro p hp
  obtain ⟨j, hj, rfl⟩ := List.mem_map.mp hp
  exact fun hji => h (hji ▸ hj)

/-- C1 counterexample input: `maxSize = 7`, so the claimed per-kind capacity
`floor(7/6) = 1` differs from the enforced one, `⌈7/6⌉ = 2`.  After
inserting `floor(7/6) + 1 = 2` distinct IDs the store holds 2 entries and
the earliest ID is still present, contradicting the claim. -/
theorem C1_eviction_bound_cex :
    ¬ ((putAll ⟨1000, 7, 100⟩ 0 [] [1, 2] (0 : Nat)).length = 7 / 6
        ∧ mapFind (putAll ⟨1000, 7, 100⟩ 0 [] [1, 2] (0 : Nat)) 1 = none) := by
  decide

/-- C1 (amended): the guard `cache.size >= maxSize / 6` uses JS real
division, so the per-kind capacity is `⌈maxSize/6⌉` (`perKindCapacity`),
not `⌊maxSize/6⌋`.  For any `maxSize ≥ 1`: starting from an empty store,
after `put` of `⌈maxSize/6⌉ + k` distinct IDs (k ≥ 1) the store contains
exactly `⌈maxSize/6⌉` entries and the `k` earliest-inserted IDs are
absent; moreover `store.size ≤ ⌈maxSize/6⌉` holds after every put. -/
theorem C1_eviction_bound {α : Type} (cfg : CacheConfig) (now : Int) (d : α)
    (ids : List Nat) (k : Nat)
    (hmax : 1 ≤ cfg.maxSize) (hnd : ids.Nodup)
    (hlen : ids.length = perKindCapacity cfg.maxSize + k) (hk : 1 ≤ k) :
    (putAll cfg now [] ids d).length = perKindCapacity cfg.maxSize
    ∧ (∀ i ∈ ids.take k, mapFind (putAll cfg now [] ids d) i = none)
    ∧ (∀ m : Nat,
        (putAll cfg now [] (ids.take m) d).length ≤ perKindCapacity cfg.maxSize) := by
  have hdropk : ids.length - perKindCapacity cfg.maxSize = k := by omega
  refine ⟨?_, ?_, ?_⟩
  · rw [putAll_nodup_eq cfg now d hmax ids hnd, hdropk]
    rw [List.length_map, List.length_drop]
    omega
  · intro i hi
    rw [putAll_nodup_eq cfg now d hmax ids hnd, hdropk]
    apply mapFind_map_const_eq_none
    intro hdrop
    have hdisj := List.disjoint_of_nodup_append
      ((List.take_append_drop k ids).symm ▸ hnd)
    exact hdisj hi hdrop
  · intro m
    rw [putAll_nodup_eq cfg now d hmax (ids.take m)
      (hnd.sublist (List.take_sublist m ids))]
    rw [List.length_map, List.length_drop]
    omega

/-- Witness for C1: `maxSize = 12` (capacity 2), IDs `[1,2,3]`, `k = 1`. -/
theorem C1_eviction_bound_witness :
    (1 ≤ (⟨1000, 12, 100⟩ : CacheConfig).maxSize
      ∧ ([1, 2, 3] : List Nat).Nodup
      ∧ ([1, 2, 3] : List Nat).length =
          perKindCapacity (⟨1000, 12, 100⟩ : CacheConfig).maxSize + 1
      ∧ 1 ≤ 1)
    ∧ ((putAll ⟨1000, 12, 100⟩ 0 [] [1, 2, 3] (0 : Nat)).length =
          perKindCapacity (⟨1000, 12, 100⟩ : CacheConfig).maxSize
      ∧ (∀ i ∈ ([1, 2, 3] : List Nat).take 1,
          mapFind (putAll ⟨1000, 12, 100⟩ 0 [] [1, 2, 3] (0 : Nat)) i = none)
      ∧ (∀ m : Nat,
          (putAll ⟨1000, 12, 100⟩ 0 [] (([1, 2, 3] : List Nat).take m) (0 : Nat)).length ≤
            perKindCapacity (⟨1000, 12, 100⟩ : CacheConfig).maxSize)) :=
  ⟨⟨by decide, by decide, by decide, by decide⟩,
    C1_eviction_bound ⟨1000, 12, 100⟩ 0 0 [1, 2, 3] 1
      (by decide) (by decide) (by decide) (by decide)⟩

theorem getCached_store_eq {α : Type} (now : Int) (s : Store α)
    (stats : CacheStatsCounters) (id : Nat) :
    (getCached now s stats id).2.2 = s := by
  simp only [getCached]
  split <;> rfl

/-- C3: an entry inserted at time `T` with ttl `D` and not overwritten since
is a hit (returning the cached entity and bumping `hits` by one) at any
time `t` with `t - T < D`, and a miss (returning `none` and bumping
`misses` by one) at any `t` with `t - T ≥ D`; in both cases `get` leaves
the store untouched, so the expired entry remains present. -/
theorem C3_ttl_validity {α : Type} (t T D : Int) (s : Store α)
    (stats : CacheStatsCounters) (id : Nat) (d : α)
    (h : mapFind s id = some ⟨d, T, D⟩) :
    (t - T < D →
      getCached t s stats id = (some d, { stats with hits := stats.hits + 1 }, s))
    ∧ (D ≤ t - T →
      getCached t s stats id = (none, { stats with misses := stats.misses + 1 }, s))
    ∧ (getCached t s stats id).2.2 = s
    ∧ mapFind (getCached t s stats id).2.2 id = some ⟨d, T, D⟩ := by
  refine ⟨?_, ?_, getCached_store_eq t s stats id, ?_⟩
  · intro hlt
    simp [getCached, h, isValid, hlt]
  · intro hge
    have hnlt : ¬ (t - T < D) := not_lt.mpr hge
    simp [getCached, h, isValid, hnlt]
  · rw [getCached_store_eq t s stats id]
    exact h

/-- Witness for C3: an entry `(1 ↦ 5)` inserted at `T = 0` with ttl 10,
queried at `t = 3`. -/
theorem C3_ttl_validity_witness :
    mapFind [(1, (⟨5, 0, 10⟩ : CacheEntry Nat))] 1 = some ⟨5, 0, 10⟩
    ∧ (((3 : Int) - 0 < 10 →
        getCached 3 [(1, (⟨5, 0, 10⟩ : CacheEntry Nat))] ⟨0, 0⟩ 1 =
          (some 5, { hits := 0 + 1, misses := 0 }, [(1, ⟨5, 0, 10⟩)]))
      ∧ (10 ≤ (3 : Int) - 0 →
        getCached 3 [(1, (⟨5, 0, 10⟩ : CacheEntry Nat))] ⟨0, 0⟩ 1 =
          (none, { hits := 0, misses := 0 + 1 }, [(1, ⟨5, 0, 10⟩)]))
      ∧ (getCached 3 [(1, (⟨5, 0, 10⟩ : CacheEntry Nat))] ⟨0, 0⟩ 1).2.2 =
          [(1, ⟨5, 0, 10⟩)]
      ∧ mapFind (getCached 3 [(1, (⟨5, 0, 10⟩ : CacheEntry Nat))] ⟨0, 0⟩ 1).2.2 1 =
          some ⟨5, 0, 10⟩) :=
  ⟨by decide, C3_ttl_validity 3 0 10 [(1, ⟨5, 0, 10⟩)] ⟨0, 0⟩ 1 5 (by decide)⟩

/-! ## C2: hydration completeness -/

theorem append_ne_empty_left (s t : String) (h : s ≠ "") : s ++ t ≠ "" := by
  intro hc
  apply h
  have hl := congrArg String.length hc
  rw [String.length_append] at hl
  have h0 : s.length = 0 := by
    have : ("" : String).length = 0 := rfl
    omega
  exact String.ext (List.length_eq_zero.mp h0)

theorem jsOrStr_ne_empty (x : Option String) (fb : String) (h : fb ≠ "") :
    jsOrStr x fb ≠ "" := by
  cases x with
  | none => simpa [jsOrStr]
  | some s =>
    by_cases hs : s = "" <;> simp [jsOrStr, hs, h]

theorem hydrateOne_entry (cfg : CacheConfig) (now : Int) (api : TogglAPI)
    (st : CMState) (e : TimeEntry) :
    (hydrateOne cfg now api st e).1.entry = e := rfl

theorem hydrateOne_workspace_name (cfg : CacheConfig) (now : Int) (api : TogglAPI)
    (st : CMState) (e : TimeEntry) :
    (hydrateOne cfg now api st e).1.workspace_name =
      jsOrStr ((CacheManager.getWorkspace cfg now api st (some e.workspace_id)).1.map
        Workspace.name) ("Workspace " ++ toString e.workspace_id) := rfl

theorem hydrateAll_spec (cfg : CacheConfig) (now : Int) (api : TogglAPI) :
    ∀ (es : List TimeEntry) (st : CMState),
      (hydrateAll cfg now api st es).1.map HydratedTimeEntry.entry = es
      ∧ ∀ h ∈ (hydrateAll cfg now api st es).1, h.workspace_name ≠ "" := by
  intro es
  induction es with
  | nil =>
    intro st
    exact ⟨rfl, by simp [hydrateAll]⟩
  | cons e rest ih =>
    intro st
    have ih1 := ih (hydrateOne cfg now api st e).2
    constructor
    · simp only [hydrateAll, List.map_cons]
      rw [hydrateOne_entry, ih1.1]
    · intro h hh
      simp only [hydrateAll, List.mem_cons] at hh
      rcases hh with rfl | hh
      · rw [hydrateOne_workspace_name]
        exact jsOrStr_ne_empty _ _ (append_ne_empty_left _ _ (by decide))
      · exact ih1.2 h hh

/-- C2: for every input sequence, `hydrateTimeEntries` returns exactly one
output per input, in order (stripping the resolved fields recovers the
input list), and every output's `workspace_name` is non-empty — the
resolved name if it is non-empty, otherwise the `"Workspace {id}"`
fallback, which `jsOrStr` applies and which is never empty. -/
theorem C2_hydration_completeness (cfg : CacheConfig) (now : Int) (api : TogglAPI)
    (st : CMState) (entries : List TimeEntry) :
    (hydrateTimeEntries cfg now api st entries).1.length = entries.length
    ∧ (hydrateTimeEntries cfg now api st entries).1.map HydratedTimeEntry.entry = entries
    ∧ ∀ h ∈ (hydrateTimeEntries cfg now api st entries).1, h.workspace_name ≠ "" := by
  have hmain := hydrateAll_spec cfg now api entries
    (prefetchAll cfg now api st
      ((collectProjectIds entries).filter (fun i => !(storeHas st.projects i))))
  refine ⟨?_, hmain.1, hmain.2⟩
  have := congrArg List.length hmain.1
  rwa [List.length_map] at this

/-! ## C8: warm single-flight -/

/-- C8: from the initial state (no warm ever completed), two `ensureCache`
calls whose synchronous bodies run back to back (the only interleaving the
run-to-completion event loop allows before either awaits) start exactly
one underlying warm operation, both await that same operation, and the
pending-operation slot is still occupied until the operation settles —
`ensureCacheEnter` never clears an occupied slot, only `settleWarm`
does. -/
theorem C8_warm_single_flight :
    ((ensureCacheEnter (ensureCacheEnter ⟨false, none, 0, 0⟩).1).1.warmCount = 1
      ∧ (ensureCacheEnter ⟨false, none, 0, 0⟩).2 = AwaitTarget.op 0
      ∧ (ensureCacheEnter (ensureCacheEnter ⟨false, none, 0, 0⟩).1).2 = AwaitTarget.op 0
      ∧ (ensureCacheEnter (ensureCacheEnter ⟨false, none, 0, 0⟩).1).1.slot = some 0)
    ∧ (∀ (s : WarmState) (p : Nat),
        s.slot = some p → (ensureCacheEnter s).1.slot = some p)
    ∧ (∀ (s : WarmState) (b : Bool), (settleWarm s b).slot = none) := by
  refine ⟨by decide, ?_, fun s b => rfl⟩
  intro s p hp
  simp only [ensureCacheEnter]
  by_cases hw : s.cacheWarmed
  · simp [hw, hp]
  · simp [hw, hp]

/-! ## C10: the falsy-id guard of `getWorkspace` -/

/-- C10: `getWorkspace` with an absent (`undefined`) or zero id returns
`null` at once — state unchanged: no hit, no miss, no upstream call, no
store write — while a positive uncached id goes through the cache and
records a miss (and no hit). -/
theorem C10_getWorkspace_guard (cfg : CacheConfig) (now : Int) (api : TogglAPI)
    (st : CMState) (i : Nat) (h1 : 0 < i)
    (h2 : mapFind st.workspaces i = none) :
    CacheManager.getWorkspace cfg now api st none = (none, st)
    ∧ CacheManager.getWorkspace cfg now api st (some 0) = (none, st)
    ∧ (CacheManager.getWorkspace cfg now api st (some i)).2.stats.misses =
        st.stats.misses + 1
    ∧ (CacheManager.getWorkspace cfg now api st (some i)).2.stats.hits =
        st.stats.hits := by
  have hg : getCached now st.workspaces st.stats i =
      (none, { st.stats with misses := st.stats.misses + 1 }, st.workspaces) := by
    simp [getCached, h2, isValid]
  have hne : ¬ i = 0 := by omega
  refine ⟨rfl, rfl, ?_, ?_⟩ <;>
  · simp only [CacheManager.getWorkspace]
    rw [if_neg hne, hg]
    cases api.getWorkspace i <;> rfl

/-- Witness for C10 at `i = 1` on a fresh state. -/
theorem C10_getWorkspace_guard_witness :
    (0 < 1 ∧ mapFind emptyState.workspaces 1 = none)
    ∧ (CacheManager.getWorkspace ⟨3600000, 1000, 100⟩ 0 stubAPI emptyState none =
        (none, emptyState)
      ∧ CacheManager.getWorkspace ⟨3600000, 1000, 100⟩ 0 stubAPI emptyState (some 0) =
        (none, emptyState)
      ∧ (CacheManager.getWorkspace ⟨3600000, 1000, 100⟩ 0 stubAPI emptyState
          (some 1)).2.stats.misses = emptyState.stats.misses + 1
      ∧ (CacheManager.getWorkspace ⟨3600000, 1000, 100⟩ 0 stubAPI emptyState
          (some 1)).2.stats.hits = emptyState.stats.hits) :=
  ⟨⟨by decide, by decide⟩,
    C10_getWorkspace_guard ⟨3600000, 1000, 100⟩ 0 stubAPI emptyState 1
      (by decide) (by decide)⟩

/-! ## Timeline: characterizing the single pass -/

theorem processEvent_skip (q : TimelineQuery) (now : Int) (acc : TimelineAcc)
    (e : TimelineEvent) (hm : matchesEvent q now e = false) :
    processEvent q now acc e = acc := by
  simp [processEvent, hm]

theorem processEvent_push (q : TimelineQuery) (now : Int) (acc : TimelineAcc)
    (e : TimelineEvent) (hm : matchesEvent q now e = true)
    (hp : (q.includeEvents && decide ((acc.events.length : Int) < q.limit)) = true) :
    processEvent q now acc e =
      { appSummary := bumpSummary acc.appSummary (normalizedApp e) (clipDuration q now e)
        events := acc.events ++ [enrichEvent q now e]
        totalCount := acc.totalCount + 1
        totalSeconds := acc.totalSeconds + clipDuration q now e } := by
  simp [processEvent, hm, hp]

theorem processEvent_nopush (q : TimelineQuery) (now : Int) (acc : TimelineAcc)
    (e : TimelineEvent) (hm : matchesEvent q now e = true)
    (hp : (q.includeEvents && decide ((acc.events.length : Int) < q.limit)) = false) :
    processEvent q now acc e =
      { appSummary := bumpSummary acc.appSummary (normalizedApp e) (clipDuration q now e)
        events := acc.events
        totalCount := acc.totalCount + 1
        totalSeconds := acc.totalSeconds + clipDuration q now e } := by
  simp [processEvent, hm, hp]

/-- The single pass, characterized: counts, seconds and the app summary
are accumulated over *all* matching events, while the returned list is the
prefix of the matching events (enriched) up to the remaining room below
`limit`, and only when `includeEvents`. -/
theorem foldl_processEvent_spec (q : TimelineQuery) (now : Int) :
    ∀ (es : List TimelineEvent) (acc : TimelineAcc),
      es.foldl (processEvent q now) acc =
        { appSummary := (es.filter (matchesEvent q now)).foldl
            (fun m e => bumpSummary m (normalizedApp e) (clipDuration q now e))
            acc.appSummary
          events := acc.events ++ (if q.includeEvents then
            ((es.filter (matchesEvent q now)).map (enrichEvent q now)).take
              (q.limit.toNat - acc.events.length) else [])
          totalCount := acc.totalCount + (es.filter (matchesEvent q now)).length
          totalSeconds := acc.totalSeconds +
            ((es.filter (matchesEvent q now)).map (clipDuration q now)).sum } := by
  intro es
  induction es with
  | nil =>
    intro acc
    cases acc
    simp
  | cons e rest ih =>
    intro acc
    by_cases hm : matchesEvent q now e
    · rw [List.foldl_cons]
      by_cases hp : (q.includeEvents && decide ((acc.events.length : Int) < q.limit)) = true
      · rw [processEvent_push q now acc e hm hp, ih]
        have hp2 := hp
        rw [Bool.and_eq_true] at hp2
        obtain ⟨hie, hlt2⟩ := hp2
        have hlt : (acc.events.length : Int) < q.limit := of_decide_eq_true hlt2
        have hlen : acc.events.length < q.limit.toNat := Int.lt_toNat.mpr hlt
        simp only [List.filter_cons, hm, if_pos, List.foldl_cons, List.length_cons,
          List.map_cons, List.sum_cons, hie, if_true, TimelineAcc.mk.injEq,
          List.length_append, List.length_singleton]
        refine ⟨trivial, ?_, by omega, by omega⟩
        have hstep : q.limit.toNat - acc.events.length =
            (q.limit.toNat - (acc.events.length + 1)) + 1 := by omega
        rw [hstep, List.take_succ_cons, List.append_assoc]
        rfl
      · have hpf : (q.includeEvents && decide ((acc.events.length : Int) < q.limit)) = false := by
          rw [← Bool.not_eq_true]
          exact hp
        rw [processEvent_nopush q now acc e hm hpf, ih]
        simp only [List.filter_cons, hm, if_pos, List.foldl_cons, List.length_cons,
          List.map_cons, List.sum_cons, TimelineAcc.mk.injEq]
        refine ⟨trivial, ?_, by omega, by omega⟩
        rcases hie : q.includeEvents with _ | _
        · simp
        · rw [hie] at hpf
          simp only [Bool.true_and, decide_eq_false_iff_not, not_lt] at hpf
          have h0 : q.limit.toNat - acc.events.length = 0 := by
            have := Int.toNat_le.mpr hpf
            omega
          simp [h0]
    · rw [List.foldl_cons, processEvent_skip q now acc e (by simpa using hm)]
      rw [ih]
      simp only [List.filter_cons]
      have hm0 : matchesEvent q now e = false := by simpa using hm
      simp [hm0]

/-- C9: when `includeEvents`, the `events` array is exactly the first
`limit` matching events in input order (`take` of the matching list), with
the filename normalized to `"Unknown"` when null, `start`/`end` the
window-clipped endpoints (absent bounds dropped), and `duration_seconds`
the clipped duration; without `includeEvents` the field is absent. -/
theorem C9_returned_events_shape (q : TimelineQuery) (now : Int)
    (events : List TimelineEvent) :
    (getTimeline q now events).events =
      if q.includeEvents then
        some (((events.filter (matchesEvent q now)).map (fun e =>
          ({ event := e
             filename := e.filename.getD "Unknown"
             start := match q.startTs with
               | some ws => max e.start_time ws
               | none => e.start_time
             endTime := match q.endTs with
               | some we => min (e.end_time.getD now) we
               | none => e.end_time.getD now
             duration_seconds := max 0
               ((match q.endTs with
                 | some we => min (e.end_time.getD now) we
                 | none => e.end_time.getD now) -
                (match q.startTs with
                 | some ws => max e.start_time ws
                 | none => e.start_time)) } : EnrichedTimelineEvent))).take
          q.limit.toNat)
      else none := by
  simp only [getTimeline, runTimelineAcc,
    foldl_processEvent_spec q now events ⟨[], [], 0, 0⟩]
  cases hie : q.includeEvents
  · simp [hie]
  · simp only [hie, if_true, List.nil_append, List.length_nil, Nat.sub_zero,
      Option.some.injEq]
    rfl

/-- C6: the `events` array is capped at `limit` — the requested value
clamped to `[1, 1000]`, defaulting to 50 when absent; `truncated` is true
iff `includeEvents` and more events matched than were returned; and
`total_events`, `total_seconds` and the per-app summary are computed over
all matching events, independent of `limit` and `includeEvents`. -/
theorem C6_timeline_truncation (s e : Option Int) (af : Option String)
    (raw : Option Int) (ie : Bool) (l2 : Int) (now : Int)
    (events : List TimelineEvent) :
    (1 ≤ clampLimit raw ∧ clampLimit raw ≤ 1000)
    ∧ clampLimit none = 50
    ∧ (∀ v : Int, 1 ≤ v → v ≤ 1000 → clampLimit (some v) = v)
    ∧ ((getTimeline ⟨s, e, af, ie, clampLimit raw⟩ now events).returned_events : Int) ≤
        clampLimit raw
    ∧ ((getTimeline ⟨s, e, af, ie, clampLimit raw⟩ now events).truncated = true ↔
        (ie = true ∧
          (getTimeline ⟨s, e, af, ie, clampLimit raw⟩ now events).returned_events <
            (getTimeline ⟨s, e, af, ie, clampLimit raw⟩ now events).total_events))
    ∧ (getTimeline ⟨s, e, af, ie, clampLimit raw⟩ now events).total_events =
        (getTimeline ⟨s, e, af, false, l2⟩ now events).total_events
    ∧ (getTimeline ⟨s, e, af, ie, clampLimit raw⟩ now events).total_seconds =
        (getTimeline ⟨s, e, af, false, l2⟩ now events).total_seconds
    ∧ (getTimeline ⟨s, e, af, ie, clampLimit raw⟩ now events).summary =
        (getTimeline ⟨s, e, af, false, l2⟩ now events).summary := by
  have hb : 1 ≤ clampLimit raw ∧ clampLimit raw ≤ 1000 := by
    cases raw with
    | none => exact ⟨by decide, by decide⟩
    | some v =>
      constructor <;> simp only [clampLimit, Option.getD_some] <;> omega
  refine ⟨hb, by decide, ?_, ?_, ?_, ?_, ?_, ?_⟩
  · intro v h1 h2
    simp only [clampLimit, Option.getD_some]
    omega
  · simp only [getTimeline, runTimelineAcc,
      foldl_processEvent_spec ⟨s, e, af, ie, clampLimit raw⟩ now events ⟨[], [], 0, 0⟩]
    cases ie
    · simp
      omega
    · simp only [if_true, List.nil_append, List.length_nil, Nat.sub_zero]
      have hlen := List.length_take ((clampLimit raw).toNat)
        ((events.filter (matchesEvent ⟨s, e, af, true, clampLimit raw⟩ now)).map
          (enrichEvent ⟨s, e, af, true, clampLimit raw⟩ now))
      have htn : ((clampLimit raw).toNat : Int) = clampLimit raw :=
        Int.toNat_of_nonneg (by omega)
      omega
  · simp only [getTimeline, Bool.and_eq_true, decide_eq_true_eq]
  · simp only [getTimeline, runTimelineAcc,
      foldl_processEvent_spec ⟨s, e, af, ie, clampLimit raw⟩ now events ⟨[], [], 0, 0⟩,
      foldl_processEvent_spec ⟨s, e, af, false, l2⟩ now events ⟨[], [], 0, 0⟩]
    rfl
  · simp only [getTimeline, runTimelineAcc,
      foldl_processEvent_spec ⟨s, e, af, ie, clampLimit raw⟩ now events ⟨[], [], 0, 0⟩,
      foldl_processEvent_spec ⟨s, e, af, false, l2⟩ now events ⟨[], [], 0, 0⟩]
    rfl
  · simp only [getTimeline, runTimelineAcc,
      foldl_processEvent_spec ⟨s, e, af, ie, clampLimit raw⟩ now events ⟨[], [], 0, 0⟩,
      foldl_processEvent_spec ⟨s, e, af, false, l2⟩ now events ⟨[], [], 0, 0⟩]
    rfl

/-- C5: with no app filter, an event is kept iff its interval overlaps the
window — it is excluded exactly when `effective_end < window.start` or
`start_time ≥ window.end`, an absent bound constraining nothing — and each
kept event contributes `max(0, min(effective_end, window.end) -
max(start_time, window.start))` seconds (absent bounds dropped from the
min/max); in particular the event `[100, 200]` against the window
`[150, 1000]` is included with clipped duration 50. -/
theorem C5_timeline_overlap (s e : Option Int) (ie : Bool) (lim : Int)
    (now : Int) (events : List TimelineEvent) :
    (∀ ev : TimelineEvent,
      matchesEvent ⟨s, e, none, ie, lim⟩ now ev = true ↔
        ((∀ ws, s = some ws → ¬ effectiveEnd now ev < ws)
          ∧ (∀ we, e = some we → ¬ ev.start_time ≥ we)))
    ∧ (getTimeline ⟨s, e, none, ie, lim⟩ now events).total_events =
        (events.filter (matchesEvent ⟨s, e, none, ie, lim⟩ now)).length
    ∧ (getTimeline ⟨s, e, none, ie, lim⟩ now events).total_seconds =
        ((events.filter (matchesEvent ⟨s, e, none, ie, lim⟩ now)).map (fun ev =>
          max 0 ((match e with
                  | some we => min (effectiveEnd now ev) we
                  | none => effectiveEnd now ev) -
                 (match s with
                  | some ws => max ev.start_time ws
                  | none => ev.start_time)))).sum
    ∧ ((getTimeline ⟨some 150, some 1000, none, true, 50⟩ 0
        [⟨1, 100, some 200, none, none, false⟩]).total_events = 1
      ∧ (getTimeline ⟨some 150, some 1000, none, true, 50⟩ 0
          [⟨1, 100, some 200, none, none, false⟩]).total_seconds = 50) := by
  refine ⟨?_, ?_, ?_, by decide, by decide⟩
  · intro ev
    cases s <;> cases e <;>
      simp [matchesEvent, Bool.and_eq_true, decide_eq_false_iff_not]
  · simp only [getTimeline, runTimelineAcc,
      foldl_processEvent_spec ⟨s, e, none, ie, lim⟩ now events ⟨[], [], 0, 0⟩]
    simp
  · simp only [getTimeline, runTimelineAcc,
      foldl_processEvent_spec ⟨s, e, none, ie, lim⟩ now events ⟨[], [], 0, 0⟩]
    simp only [Int.zero_add]
    rfl

/-! ## C7: the single prefetch round -/

theorem mem_mapSet {α : Type} {s : Store α} {i : Nat} {e : CacheEntry α} :
    ∀ q ∈ mapSet s i e, q ∈ s ∨ q = (i, e) := by
  intro q hq
  simp only [mapSet] at hq
  split at hq
  · obtain ⟨p, hp, hpe⟩ := List.mem_map.mp hq
    by_cases hpi : (p.1 == i) = true
    · rw [if_pos hpi] at hpe
      exact Or.inr hpe.symm
    · rw [if_neg hpi] at hpe
      exact Or.inl (hpe ▸ hp)
  · rcases List.mem_append.mp hq with h | h
    · exact Or.inl h
    · exact Or.inr (List.mem_singleton.mp h)

theorem mem_mapDelete {α : Type} {s : Store α} {k : Nat} :
    ∀ q ∈ mapDelete s k, q ∈ s := by
  intro q hq
  exact List.mem_of_mem_filter hq

theorem mem_setCached {α : Type} {cfg : CacheConfig} {now : Int} {s : Store α}
    {i : Nat} {d : α} :
    ∀ q ∈ setCached cfg now s i d, q ∈ s ∨ q = (i, ⟨d, now, cfg.ttl⟩) := by
  intro q hq
  simp only [setCached] at hq
  rcases mem_mapSet q hq with h | h
  · split at h
    · split at h
      · exact Or.inl h
      · exact Or.inl (mem_mapDelete q h)
    · exact Or.inl h
  · exact Or.inr h

theorem mapFind_setCached_ne {α : Type} (cfg : CacheConfig) (now : Int)
    (s : Store α) (i j : Nat) (d : α) (hij : j ≠ i)
    (hj : mapFind s j = none) :
    mapFind (setCached cfg now s i d) j = none := by
  rw [mapFind_eq_none_iff]
  intro p hp
  rcases mem_setCached p hp with h | h
  · exact (mapFind_eq_none_iff s j).mp hj p h
  · rw [h]
    exact fun hc => hij hc.symm

theorem getProject_miss_log (cfg : CacheConfig) (now : Int) (api : TogglAPI)
    (st : CMState) (i : Nat) (h : mapFind st.projects i = none) :
    (CacheManager.getProject cfg now api st i).2.fetchLog =
      st.fetchLog ++ [FetchCall.project i] := by
  have hg : getCached now st.projects st.stats i =
      (none, { st.stats with misses := st.stats.misses + 1 }, st.projects) := by
    simp [getCached, h, isValid]
  simp only [CacheManager.getProject, hg]
  cases api.getProject i <;> rfl

theorem getProject_preserves_absent (cfg : CacheConfig) (now : Int)
    (api : TogglAPI) (st : CMState) (i j : Nat)
    (hj : mapFind st.projects j = none) (hij : j ≠ i) :
    mapFind (CacheManager.getProject cfg now api st i).2.projects j = none := by
  simp only [CacheManager.getProject]
  cases hg1 : (getCached now st.projects st.stats i).1 with
  | some p => exact hj
  | none =>
    cases api.getProject i with
    | ok p => exact mapFind_setCached_ne cfg now st.projects i j p hij hj
    | notFound => exact hj
    | failed m => exact hj

theorem prefetchAll_log (cfg : CacheConfig) (now : Int) (api : TogglAPI) :
    ∀ (ids : List Nat) (st : CMState), ids.Nodup →
      (∀ i ∈ ids, mapFind st.projects i = none) →
      (prefetchAll cfg now api st ids).fetchLog =
        st.fetchLog ++ ids.map FetchCall.project := by
  intro ids
  induction ids with
  | nil =>
    intro st _ _
    simp [prefetchAll]
  | cons i rest ih =>
    intro st hnd habs
    obtain ⟨hni, hnrest⟩ := List.nodup_cons.mp hnd
    have habsrest : ∀ j ∈ rest,
        mapFind (CacheManager.getProject cfg now api st i).2.projects j = none := by
      intro j hj
      exact getProject_preserves_absent cfg now api st i j
        (habs j (List.mem_cons_of_mem _ hj))
        (fun hji => hni (hji ▸ hj))
    have hrec := ih (CacheManager.getProject cfg now api st i).2 hnrest habsrest
    show (prefetchAll cfg now api (CacheManager.getProject cfg now api st i).2 rest).fetchLog = _
    rw [hrec, getProject_miss_log cfg now api st i (habs i (List.mem_cons_self i rest))]
    simp

theorem collectStep_none {acc : List Nat} {e : TimeEntry}
    (h : e.project_id = none) : collectStep acc e = acc := by
  simp [collectStep, h]

theorem collectStep_add {acc : List Nat} {e : TimeEntry} {pid : Nat}
    (h : e.project_id = some pid) (hc : pid ≠ 0 ∧ pid ∉ acc) :
    collectStep acc e = acc ++ [pid] := by
  simp only [collectStep, h]
  rw [if_pos hc]

theorem collectStep_stay {acc : List Nat} {e : TimeEntry} {pid : Nat}
    (h : e.project_id = some pid) (hc : ¬ (pid ≠ 0 ∧ pid ∉ acc)) :
    collectStep acc e = acc := by
  simp only [collectStep, h]
  rw [if_neg hc]

theorem collect_go_mem :
    ∀ (es : List TimeEntry) (acc : List Nat) (p : Nat),
      p ∈ es.foldl collectStep acc ↔
        p ∈ acc ∨ (p ≠ 0 ∧ ∃ e ∈ es, e.project_id = some p) := by
  intro es
  induction es with
  | nil =>
    intro acc p
    simp
  | cons e rest ih =>
    intro acc p
    rw [List.foldl_cons]
    cases hpid : e.project_id with
    | none =>
      rw [collectStep_none hpid, ih]
      simp [hpid]
    | some pid =>
      by_cases hc : pid ≠ 0 ∧ pid ∉ acc
      · rw [collectStep_add hpid hc, ih]
        simp only [List.mem_append, List.mem_singleton, List.mem_cons,
          List.not_mem_nil, or_false]
        constructor
        · rintro (⟨h | rfl⟩ | ⟨hp0, e2, he2, hpe⟩)
          · exact Or.inl h
          · exact Or.inr ⟨hc.1, e, Or.inl rfl, hpid⟩
          · exact Or.inr ⟨hp0, e2, Or.inr he2, hpe⟩
        · rintro (h | ⟨hp0, e2, he2 | he2, hpe⟩)
          · exact Or.inl (Or.inl h)
          · rw [he2] at hpe
            rw [hpid] at hpe
            cases hpe
            exact Or.inl (Or.inr rfl)
          · exact Or.inr ⟨hp0, e2, he2, hpe⟩
      · rw [collectStep_stay hpid hc, ih]
        simp only [List.mem_cons]
        rw [not_and_or, not_not, not_not] at hc
        constructor
        · rintro (h | ⟨hp0, e2, he2, hpe⟩)
          · exact Or.inl h
          · exact Or.inr ⟨hp0, e2, Or.inr he2, hpe⟩
        · rintro (h | ⟨hp0, e2, he2 | he2, hpe⟩)
          · exact Or.inl h
          · rw [he2, hpid] at hpe
            cases hpe
            rcases hc with hc | hc
            · exact absurd hc hp0
            · exact Or.inl hc
          · exact Or.inr ⟨hp0, e2, he2, hpe⟩

theorem collect_go_nodup :
    ∀ (es : List TimeEntry) (acc : List Nat), acc.Nodup →
      (es.foldl collectStep acc).Nodup := by
  intro es
  induction es with
  | nil =>
    intro acc h
    simpa using h
  | cons e rest ih =>
    intro acc hacc
    rw [List.foldl_cons]
    cases hpid : e.project_id with
    | none =>
      rw [collectStep_none hpid]
      exact ih acc hacc
    | some pid =>
      by_cases hc : pid ≠ 0 ∧ pid ∉ acc
      · rw [collectStep_add hpid hc]
        apply ih
        simp [List.nodup_append, hacc, hc.2]
      · rw [collectStep_stay hpid hc]
        exact ih acc hacc

theorem collectProjectIds_mem (entries : List TimeEntry) (p : Nat) :
    p ∈ collectProjectIds entries ↔
      (p ≠ 0 ∧ ∃ e ∈ entries, e.project_id = some p) := by
  rw [collectProjectIds, collect_go_mem]
  simp

theorem collectProjectIds_nodup (entries : List TimeEntry) :
    (collectProjectIds entries).Nodup :=
  collect_go_nodup entries [] List.nodup_nil

/-- C7: `hydrateTimeEntries` is one prefetch round followed by the
per-entry loop; the round issues exactly one `getProject` upstream call
per element of the distinct referenced-project-ID set that is absent from
the project store — nothing for present IDs and no calls of any other
entity kind. -/
theorem C7_prefetch_round (cfg : CacheConfig) (now : Int) (api : TogglAPI)
    (st : CMState) (entries : List TimeEntry) :
    (prefetchAll cfg now api st
        ((collectProjectIds entries).filter (fun i => !(storeHas st.projects i)))).fetchLog =
      st.fetchLog ++
        ((collectProjectIds entries).filter (fun i => !(storeHas st.projects i))).map
          FetchCall.project
    ∧ (collectProjectIds entries).Nodup
    ∧ (∀ p : Nat, p ∈ collectProjectIds entries ↔
        (p ≠ 0 ∧ ∃ e ∈ entries, e.project_id = some p))
    ∧ hydrateTimeEntries cfg now api st entries =
        hydrateAll cfg now api
          (prefetchAll cfg now api st
            ((collectProjectIds entries).filter (fun i => !(storeHas st.projects i))))
          entries := by
  refine ⟨?_, collectProjectIds_nodup entries,
    collectProjectIds_mem entries, rfl⟩
  apply prefetchAll_log
  · exact (collectProjectIds_nodup entries).filter _
  · intro i hi
    have hf := List.of_mem_filter hi
    simp only [storeHas, Bool.not_eq_true'] at hf
    cases hopt : mapFind st.projects i with
    | none => rfl
    | some e2 =>
      rw [hopt] at hf
      simp at hf

/-! ## C4: failure isolation in hydration -/

theorem getCached_fst_some {α : Type} {now : Int} {s : Store α}
    {stats : CacheStatsCounters} {id : Nat} {x : α}
    (h : (getCached now s stats id).1 = some x) :
    ∃ e, mapFind s id = some e ∧ e.data = x := by
  simp only [getCached] at h
  split at h
  · obtain ⟨e, he, hx⟩ := Option.map_eq_some'.mp h
    exact ⟨e, he, hx⟩
  · cases h

theorem ProjOk_nil (projFn : Nat → Project) (b : Nat) : ProjOk projFn b [] := by
  intro p hp
  cases hp

theorem ProjOk_setCached {projFn : Nat → Project} {b : Nat}
    {cfg : CacheConfig} {now : Int} {s : Store Project} {i : Nat}
    (hInv : ProjOk projFn b s) (hib : i ≠ b) :
    ProjOk projFn b (setCached cfg now s i (projFn i)) := by
  intro q hq
  rcases mem_setCached q hq with h | h
  · exact hInv q h
  · rw [h]
    exact ⟨hib, rfl⟩

theorem getProject_ok (cfg : CacheConfig) (now : Int) (api : TogglAPI)
    (st : CMState) (i : Nat) (projFn : Nat → Project) (b : Nat)
    (hInv : ProjOk projFn b st.projects) (hib : i ≠ b)
    (hapi : api.getProject i = Fetch.ok (projFn i)) :
    (CacheManager.getProject cfg now api st i).1 = some (projFn i)
    ∧ ProjOk projFn b (CacheManager.getProject cfg now api st i).2.projects := by
  simp only [CacheManager.getProject]
  cases hg : (getCached now st.projects st.stats i).1 with
  | some p =>
    obtain ⟨e, hfind, hdata⟩ := getCached_fst_some hg
    have hmem := mapFind_mem hfind
    have := (hInv (i, e) hmem).2
    constructor
    · simp only [Option.some.injEq]
      rw [← hdata, this]
    · exact hInv
  | none =>
    rw [hapi]
    exact ⟨rfl, ProjOk_setCached hInv hib⟩

theorem getProject_fail (cfg : CacheConfig) (now : Int) (api : TogglAPI)
    (st : CMState) (projFn : Nat → Project) (b : Nat)
    (hInv : ProjOk projFn b st.projects)
    (hfail : ∀ pr, api.getProject b ≠ Fetch.ok pr) :
    (CacheManager.getProject cfg now api st b).1 = none
    ∧ (CacheManager.getProject cfg now api st b).2.projects = st.projects := by
  have hfind : mapFind st.projects b = none := by
    cases hf : mapFind st.projects b with
    | none => rfl
    | some e =>
      have := (hInv (b, e) (mapFind_mem hf)).1
      exact absurd rfl this
  have hg : (getCached now st.projects st.stats b).1 = none := by
    simp [getCached, hfind, isValid]
  simp only [CacheManager.getProject, hg]
  cases hapi : api.getProject b with
  | ok pr => exact absurd hapi (hfail pr)
  | notFound => exact ⟨rfl, rfl⟩
  | failed m => exact ⟨rfl, rfl⟩

theorem getWorkspace_projects (cfg : CacheConfig) (now : Int) (api : TogglAPI)
    (st : CMState) (id : Option Nat) :
    (CacheManager.getWorkspace cfg now api st id).2.projects = st.projects := by
  cases id with
  | none => rfl
  | some i =>
    simp only [CacheManager.getWorkspace]
    split
    · rfl
    · split
      · rfl
      · split <;> rfl

theorem getClient_projects (cfg : CacheConfig) (now : Int) (api : TogglAPI)
    (st : CMState) (id : Nat) :
    (CacheManager.getClient cfg now api st id).2.projects = st.projects := by
  simp only [CacheManager.getClient]
  split
  · rfl
  · split <;> rfl

theorem getTask_projects (cfg : CacheConfig) (now : Int) (api : TogglAPI)
    (st : CMState) (id wid pid : Nat) :
    (CacheManager.getTask cfg now api st id wid pid).2.projects = st.projects := by
  simp only [CacheManager.getTask]
  split
  · rfl
  · split <;> rfl

theorem getUser_projects (cfg : CacheConfig) (now : Int) (api : TogglAPI)
    (st : CMState) (id : Nat) :
    (CacheManager.getUser cfg now api st id).2.projects = st.projects := by
  simp only [CacheManager.getUser]
  split
  · rfl
  · split <;> rfl

theorem getTag_projects (cfg : CacheConfig) (now : Int) (api : TogglAPI)
    (st : CMState) (id wid : Nat) :
    (CacheManager.getTag cfg now api st id wid).2.projects = st.projects := by
  simp only [CacheManager.getTag]
  split
  · rfl
  · split <;> rfl

theorem tagFold_projects (cfg : CacheConfig) (now : Int) (api : TogglAPI)
    (wid : Nat) :
    ∀ (ids : List Nat) (acc : List String × CMState),
      (ids.foldl (fun (acc : List String × CMState) tagId =>
        let tg := CacheManager.getTag cfg now api acc.2 tagId wid
        match tg.1 with
        | some tag => (acc.1 ++ [tag.name], tg.2)
        | none => (acc.1, tg.2)) acc).2.projects = acc.2.projects := by
  intro ids
  induction ids with
  | nil =>
    intro acc
    rfl
  | cons i rest ih =>
    intro acc
    rw [List.foldl_cons]
    rw [ih]
    show (match (CacheManager.getTag cfg now api acc.2 i wid).1 with
      | some tag => (acc.1 ++ [tag.name], (CacheManager.getTag cfg now api acc.2 i wid).2)
      | none => (acc.1, (CacheManager.getTag cfg now api acc.2 i wid).2)).2.projects =
      acc.2.projects
    split
    · exact getTag_projects cfg now api acc.2 i wid
    · exact getTag_projects cfg now api acc.2 i wid

theorem resolveTaskName_projects (cfg : CacheConfig) (now : Int) (api : TogglAPI)
    (st : CMState) (e : TimeEntry) :
    (resolveTaskName cfg now api st e).2.projects = st.projects := by
  simp only [resolveTaskName]
  split
  · split
    · rfl
    · exact getTask_projects cfg now api st _ e.workspace_id _
  · rfl

theorem resolveUserName_projects (cfg : CacheConfig) (now : Int) (api : TogglAPI)
    (st : CMState) (e : TimeEntry) :
    (resolveUserName cfg now api st e).2.projects = st.projects := by
  simp only [resolveUserName]
  split
  · rfl
  · split
    · rfl
    · exact getUser_projects cfg now api st _

theorem resolveTagNames_projects (cfg : CacheConfig) (now : Int) (api : TogglAPI)
    (st : CMState) (e : TimeEntry) :
    (resolveTagNames cfg now api st e).2.projects = st.projects := by
  simp only [resolveTagNames]
  split
  · rfl
  · split
    · exact tagFold_projects cfg now api e.workspace_id _ ([], st)
    · rfl

theorem resolveProjectClient_spec (cfg : CacheConfig) (now : Int) (api : TogglAPI)
    (st : CMState) (e : TimeEntry) (projFn : Nat → Project) (b : Nat)
    (hInv : ProjOk projFn b st.projects)
    (hfail : ∀ pr, api.getProject b ≠ Fetch.ok pr)
    (hok : ∀ p, e.project_id = some p → p ≠ 0 → p ≠ b →
      api.getProject p = Fetch.ok (projFn p) ∧ (projFn p).name ≠ "") :
    (resolveProjectClient cfg now api st e).1.1 = expectedProjectName projFn b e
    ∧ ProjOk projFn b (resolveProjectClient cfg now api st e).2.projects := by
  cases hpid : e.project_id with
  | none =>
    constructor
    · simp only [resolveProjectClient, expectedProjectName, hpid]
    · simp only [resolveProjectClient, hpid]
      exact hInv
  | some p =>
    by_cases hp0 : p = 0
    · subst hp0
      constructor
      · simp [resolveProjectClient, expectedProjectName, hpid]
      · simp only [resolveProjectClient, hpid, if_pos rfl]
        exact hInv
    · by_cases hpb : p = b
      · subst hpb
        obtain ⟨hg1, hg2⟩ := getProject_fail cfg now api st projFn p hInv hfail
        constructor
        · simp only [resolveProjectClient, expectedProjectName, hpid, if_neg hp0,
            if_pos rfl, hg1, Option.map_none']
          simp [jsOrStr]
        · simp only [resolveProjectClient, hpid, if_neg hp0, hg1]
          rw [hg2]
          exact hInv
      · obtain ⟨hapi, hname⟩ := hok p hpid hp0 hpb
        obtain ⟨hg1, hg2⟩ := getProject_ok cfg now api st p projFn b hInv hpb hapi
        cases hcid : (projFn p).client_id with
        | none =>
          constructor
          · simp only [resolveProjectClient, expectedProjectName, hpid, if_neg hp0,
              if_neg hpb, hg1, Option.map_some', hcid]
            simp [jsOrStr, hname]
          · simp only [resolveProjectClient, hpid, if_neg hp0, hg1, hcid]
            exact hg2
        | some cid =>
          by_cases hcid0 : cid = 0
          · subst hcid0
            constructor
            · simp only [resolveProjectClient, expectedProjectName, hpid, if_neg hp0,
                if_neg hpb, hg1, Option.map_some', hcid, if_pos rfl]
              simp [jsOrStr, hname]
            · simp only [resolveProjectClient, hpid, if_neg hp0, hg1, hcid, if_pos rfl]
              exact hg2
          · constructor
            · simp only [resolveProjectClient, expectedProjectName, hpid, if_neg hp0,
                if_neg hpb, hg1, Option.map_some', hcid, if_neg hcid0]
              simp [jsOrStr, hname]
            · simp only [resolveProjectClient, hpid, if_neg hp0, hg1, hcid, if_neg hcid0]
              rw [getClient_projects]
              exact hg2

theorem hydrateOne_isolation (cfg : CacheConfig) (now : Int) (api : TogglAPI)
    (st : CMState) (e : TimeEntry) (projFn : Nat → Project) (b : Nat)
    (hInv : ProjOk projFn b st.projects)
    (hfail : ∀ pr, api.getProject b ≠ Fetch.ok pr)
    (hok : ∀ p, e.project_id = some p → p ≠ 0 → p ≠ b →
      api.getProject p = Fetch.ok (projFn p) ∧ (projFn p).name ≠ "") :
    (hydrateOne cfg now api st e).1.project_name = expectedProjectName projFn b e
    ∧ ProjOk projFn b (hydrateOne cfg now api st e).2.projects := by
  have hInv1 : ProjOk projFn b
      (CacheManager.getWorkspace cfg now api st (some e.workspace_id)).2.projects := by
    rw [getWorkspace_projects]
    exact hInv
  have hpc := resolveProjectClient_spec cfg now api
    (CacheManager.getWorkspace cfg now api st (some e.workspace_id)).2 e projFn b
    hInv1 hfail hok
  constructor
  · exact hpc.1
  · show ProjOk projFn b (resolveTagNames cfg now api _ e).2.projects
    rw [resolveTagNames_projects, resolveUserName_projects, resolveTaskName_projects]
    exact hpc.2

theorem hydrateAll_isolation (cfg : CacheConfig) (now : Int) (api : TogglAPI)
    (projFn : Nat → Project) (b : Nat)
    (hfail : ∀ pr, api.getProject b ≠ Fetch.ok pr) :
    ∀ (es : List TimeEntry) (st : CMState), ProjOk projFn b st.projects →
      (∀ e ∈ es, ∀ p, e.project_id = some p → p ≠ 0 → p ≠ b →
        api.getProject p = Fetch.ok (projFn p) ∧ (projFn p).name ≠ "") →
      List.Forall₂ (fun e h => h.project_name = expectedProjectName projFn b e)
        es (hydrateAll cfg now api st es).1 := by
  intro es
  induction es with
  | nil =>
    intro st _ _
    exact List.Forall₂.nil
  | cons e rest ih =>
    intro st hInv hok
    have h1 := hydrateOne_isolation cfg now api st e projFn b hInv hfail
      (hok e (List.mem_cons_self e rest))
    have h2 := ih (hydrateOne cfg now api st e).2 h1.2
      (fun e2 he2 => hok e2 (List.mem_cons_of_mem _ he2))
    exact List.Forall₂.cons h1.1 h2

theorem prefetchAll_ProjOk (cfg : CacheConfig) (now : Int) (api : TogglAPI)
    (projFn : Nat → Project) (b : Nat)
    (hfail : ∀ pr, api.getProject b ≠ Fetch.ok pr) :
    ∀ (ids : List Nat) (st : CMState), ProjOk projFn b st.projects →
      (∀ i ∈ ids, i = b ∨ api.getProject i = Fetch.ok (projFn i)) →
      ProjOk projFn b (prefetchAll cfg now api st ids).projects := by
  intro ids
  induction ids with
  | nil =>
    intro st hInv _
    exact hInv
  | cons i rest ih =>
    intro st hInv hids
    show ProjOk projFn b
      (prefetchAll cfg now api (CacheManager.getProject cfg now api st i).2 rest).projects
    apply ih
    · rcases hids i (List.mem_cons_self i rest) with rfl | hoki
      · rw [(getProject_fail cfg now api st projFn i hInv hfail).2]
        exact hInv
      · by_cases hib : i = b
        · subst hib
          rw [(getProject_fail cfg now api st projFn i hInv hfail).2]
          exact hInv
        · exact (getProject_ok cfg now api st i projFn b hInv hib hoki).2
    · exact fun j hj => hids j (List.mem_cons_of_mem _ hj)

/-- C4: if the adapter fails (rejects or resolves to nothing) for exactly
one referenced project id `b` while every other referenced project
resolves (to a project with a non-empty name), hydration — a total
function here, so it cannot raise — gives exactly the entries referencing
`b` the placeholder `"Project {b}"` and every other referenced entry its
project's real name (entries with no truthy project reference get none),
as `expectedProjectName` states. -/
theorem C4_failure_isolation (cfg : CacheConfig) (now : Int) (api : TogglAPI)
    (st : CMState) (entries : List TimeEntry) (projFn : Nat → Project) (b : Nat)
    (hempty : st.projects = [])
    (hfail : ∀ pr, api.getProject b ≠ Fetch.ok pr)
    (hok : ∀ p ∈ collectProjectIds entries, p ≠ b →
      api.getProject p = Fetch.ok (projFn p) ∧ (projFn p).name ≠ "") :
    List.Forall₂ (fun e h => h.project_name = expectedProjectName projFn b e)
      entries (hydrateTimeEntries cfg now api st entries).1 := by
  have hInv0 : ProjOk projFn b st.projects := by
    rw [hempty]
    exact ProjOk_nil projFn b
  have hInv1 : ProjOk projFn b
      (prefetchAll cfg now api st
        ((collectProjectIds entries).filter (fun i => !(storeHas st.projects i)))).projects := by
    apply prefetchAll_ProjOk cfg now api projFn b hfail _ st hInv0
    intro i hi
    by_cases hib : i = b
    · exact Or.inl hib
    · exact Or.inr (hok i (List.mem_of_mem_filter hi) hib).1
  apply hydrateAll_isolation cfg now api projFn b hfail entries _ hInv1
  intro e he p hpe hp0 hpb
  apply hok p _ hpb
  rw [collectProjectIds_mem]
  exact ⟨hp0, e, he, hpe⟩

/-- C4 counterexample input: the adapter fails for exactly one referenced
project id (2) among many, and every other resolution succeeds — but
project 1 resolves to a project whose real name is the empty string, so
the `||` fallback (lines 343) gives the entry referencing project 1 the
placeholder `"Project 1"` as well, not its real name, refuting the claim
as stated.  The second and third conjuncts exhibit that project 1's fetch
does succeed while project 2's fails. -/
theorem C4_failure_isolation_cex :
    (hydrateTimeEntries ⟨3600000, 1000, 100⟩ 0 emptyNameAPI emptyState
        [⟨1, 10, some 1, none, none, none⟩, ⟨2, 10, some 2, none, none, none⟩]).1.map
      HydratedTimeEntry.project_name = [some "Project 1", some "Project 2"]
    ∧ emptyNameAPI.getProject 1 = Fetch.ok ⟨1, 10, none, ""⟩
    ∧ emptyNameAPI.getProject 2 = Fetch.failed "network" := by
  refine ⟨?_, by decide, by decide⟩
  decide

/-- Witness for C4: two entries referencing projects 1 and 2; the adapter
rejects exactly project 2. -/
theorem C4_failure_isolation_witness :
    (emptyState.projects = []
      ∧ (∀ pr : Project, isolationAPI.getProject 2 ≠ Fetch.ok pr)
      ∧ (∀ p ∈ collectProjectIds
            [⟨1, 10, some 1, none, none, none⟩, ⟨2, 10, some 2, none, none, none⟩],
          p ≠ 2 → isolationAPI.getProject p = Fetch.ok (isolationProjFn p) ∧
            (isolationProjFn p).name ≠ ""))
    ∧ List.Forall₂
        (fun e h => h.project_name = expectedProjectName isolationProjFn 2 e)
        [⟨1, 10, some 1, none, none, none⟩, ⟨2, 10, some 2, none, none, none⟩]
        (hydrateTimeEntries ⟨3600000, 1000, 100⟩ 0 isolationAPI emptyState
          [⟨1, 10, some 1, none, none, none⟩, ⟨2, 10, some 2, none, none, none⟩]).1 :=
  ⟨⟨rfl, fun pr hc => by simp [isolationAPI] at hc, by decide⟩,
    C4_failure_isolation ⟨3600000, 1000, 100⟩ 0 isolationAPI emptyState
      [⟨1, 10, some 1, none, none, none⟩, ⟨2, 10, some 2, none, none, none⟩]
      isolationProjFn 2 rfl (fun pr hc => by simp [isolationAPI] at hc) (by decide)⟩

end McpToggl
